import Mathlib

/-!
Shallow embedding of the KOReader → Obsidian importer
(`src/templating.ts` with its importer section, `src/noteParsing.ts`,
`src/colorTagging.ts`) and proofs about its specification claims.

Strings are modelled as Lean `String`/`List Char`; JavaScript numbers that
only ever hold integers are modelled as `Nat`/`Int` with explicit `% 2 ^ 32`
where 32-bit overflow matters.  `undefined`/`null` fields are `Option`.
-/

namespace KOSync

/-! ### JavaScript string primitives -/

/-- The JavaScript whitespace class (`WhiteSpace` ∪ `LineTerminator`), the set
used by `String.prototype.trim`/`trimEnd` and by `\s` in regexes. -/
def isJsWs (c : Char) : Bool :=
  let n := c.toNat
  n = 32 || n = 9 || n = 10 || n = 13 || n = 11 || n = 12 ||
  n = 0xA0 || n = 0x1680 || (0x2000 ≤ n && n ≤ 0x200A) ||
  n = 0x2028 || n = 0x2029 || n = 0x202F || n = 0x205F ||
  n = 0x3000 || n = 0xFEFF

/-- `String.prototype.trimEnd` on a character list. -/
def trimEndJs (l : List Char) : List Char :=
  (l.reverse.dropWhile isJsWs).reverse

/-- `String.prototype.trim` on a character list. -/
def trimJsList (l : List Char) : List Char :=
  trimEndJs (l.dropWhile isJsWs)

/-- `s.trim()`. -/
def jsTrim (s : String) : String := ⟨trimJsList s.data⟩

/-- `s.replace(/\r\n/g, "\n")`: the global regex scans left to right over
non-overlapping occurrences. -/
def replaceCRLF : List Char → List Char
  | '\r' :: '\n' :: rest => '\n' :: replaceCRLF rest
  | c :: rest => c :: replaceCRLF rest
  | [] => []

/-- One character of `s.replace(/\r/g, "\n")`. -/
def replaceCRchar (c : Char) : Char := if c = '\r' then '\n' else c

/-- `normalizeEOL` (templating.ts:597-599):
`s.replace(/\r\n/g, "\n").replace(/\r/g, "\n").trimEnd()`. -/
def normalizeEOL (s : String) : String :=
  ⟨trimEndJs ((replaceCRLF s.data).map replaceCRchar)⟩

/-! ### Sync decision engine (`createOrUpdate`, templating.ts:500-521) -/

inductive SyncStatus
  | created
  | updated
  | skipped
deriving DecidableEq

/-- The target document store (the Obsidian vault), as a map from vault path
to file content; `none` means no file exists at the path. -/
def VFS := String → Option String

/-- Writing a file into the store. -/
def vfsWrite (v : VFS) (p content : String) : VFS :=
  fun q => if q = p then some content else v q

/-- Shallow embedding of `createOrUpdate` (templating.ts:500-521).  Returns
the classification together with the store after the call.  `ensureFolder`
only creates directories and never changes any file content, so it is the
identity on the file map. -/
def createOrUpdate (v : VFS) (vaultPath content : String) (dryRun : Bool) :
    SyncStatus × VFS :=
  match v vaultPath with
  | none =>
    if dryRun then (.created, v)
    else (.created, vfsWrite v vaultPath content)
  | some current =>
    if normalizeEOL current = normalizeEOL content then (.skipped, v)
    else if dryRun then (.updated, v)
    else (.updated, vfsWrite v vaultPath content)

/-! ### Theorems for C1 and C9 -/

/-- C1: the sync decision for a candidate output path is a three-state
classifier: no existing document → create; existing document equal to the
rendered content after normalizing CRLF and lone CR to LF and trimming
trailing whitespace → skip; otherwise → update.  In particular a document
that differs from the rendered content only in line-ending style is
skipped. -/
theorem c1_sync_three_state (v : VFS) (p c : String) (dryRun : Bool) :
    (v p = none → (createOrUpdate v p c dryRun).1 = SyncStatus.created) ∧
    (∀ cur, v p = some cur → normalizeEOL cur = normalizeEOL c →
      (createOrUpdate v p c dryRun).1 = SyncStatus.skipped) ∧
    (∀ cur, v p = some cur → normalizeEOL cur ≠ normalizeEOL c →
      (createOrUpdate v p c dryRun).1 = SyncStatus.updated) ∧
    (∀ cur, v p = some cur →
      (replaceCRLF cur.data).map replaceCRchar = (replaceCRLF c.data).map replaceCRchar →
      (createOrUpdate v p c dryRun).1 = SyncStatus.skipped) := by
  refine ⟨fun h => ?_, fun cur h heq => ?_, fun cur h hne => ?_, fun cur h heol => ?_⟩
  · simp only [createOrUpdate, h]
    cases dryRun <;> rfl
  · simp only [createOrUpdate, h, heq, if_pos]
  · simp only [createOrUpdate, h, if_neg hne]
    cases dryRun <;> rfl
  · have heq : normalizeEOL cur = normalizeEOL c := by
      simp only [normalizeEOL, heol]
    simp only [createOrUpdate, h, heq, if_pos]

/-- Witness for C1 at concrete inputs: a store holding `"x\r\ny"` at
`"a.md"`; the rendered content `"x\ny"` is skipped there (content differs
only in line endings), and a fresh path is classified as create. -/
theorem c1_witness :
    (createOrUpdate
      (fun q => if q = "a.md" then some "x\r\ny" else none) "b.md" "x\ny" false).1
        = SyncStatus.created ∧
    (createOrUpdate
      (fun q => if q = "a.md" then some "x\r\ny" else none) "a.md" "x\ny" false).1
        = SyncStatus.skipped :=
  ⟨(c1_sync_three_state (fun q => if q = "a.md" then some "x\r\ny" else none)
      "b.md" "x\ny" false).1 (by decide),
   (c1_sync_three_state (fun q => if q = "a.md" then some "x\r\ny" else none)
      "a.md" "x\ny" false).2.2.2 "x\r\ny" (by decide) (by decide)⟩

/-- C9: dry-run performs no mutation of the target store and returns the
same create/update/skip classification that a live run would perform from
the same starting state. -/
theorem c9_dry_run_no_mutation (v : VFS) (p c : String) :
    (createOrUpdate v p c true).2 = v ∧
    (createOrUpdate v p c true).1 = (createOrUpdate v p c false).1 := by
  unfold createOrUpdate
  cases h : v p with
  | none => exact ⟨rfl, rfl⟩
  | some cur =>
    by_cases heq : normalizeEOL cur = normalizeEOL c
    · simp [heq]
    · simp [heq]

/-! ### Identity generator (`hash32` / `stableHighlightId`, templating.ts:585-609) -/

/-- The UTF-16 code units of one character, as `charCodeAt` sees them. -/
def charUtf16 (c : Char) : List Nat :=
  if c.toNat < 0x10000 then [c.toNat]
  else [0xD800 + (c.toNat - 0x10000) / 0x400, 0xDC00 + (c.toNat - 0x10000) % 0x400]

/-- The UTF-16 code-unit sequence of a string. -/
def utf16Units (s : String) : List Nat := (s.data.map charUtf16).flatten

/-- One loop iteration of `hash32` (templating.ts:602-609):
`h ^= u; h = (h + ((h<<1)+(h<<4)+(h<<7)+(h<<8)+(h<<24))) >>> 0`.
In JavaScript each shift is truncated to a signed 32-bit value, and the sum
is taken back to an unsigned 32-bit value by `>>> 0`; every intermediate
truncation changes the value by a multiple of 2^32, so the result equals
this untruncated sum reduced `% 2 ^ 32`. -/
def hash32Step (h u : Nat) : Nat :=
  let h1 := h ^^^ u
  (h1 + ((h1 <<< 1) + (h1 <<< 4) + (h1 <<< 7) + (h1 <<< 8) + (h1 <<< 24))) % 2 ^ 32

/-- Digit characters as produced by `Number.prototype.toString(16)`
(lowercase). -/
def hexDigitChar (n : Nat) : Char :=
  if n < 10 then Char.ofNat (48 + n) else Char.ofNat (87 + n)

/-- Hexadecimal digit list of a number, most significant first, as produced
by `h.toString(16)` for a nonnegative integer (`0` renders as `"0"`). -/
def hexDigits (n : Nat) : List Char :=
  if n < 16 then [hexDigitChar n]
  else hexDigits (n / 16) ++ [hexDigitChar (n % 16)]
termination_by n
decreasing_by exact Nat.div_lt_self (by omega) (by omega)

/-- `.padStart(8, "0")` on a digit list. -/
def padStart8 (l : List Char) : List Char :=
  List.replicate (8 - l.length) '0' ++ l

/-- `hash32` (templating.ts:602-609): 32-bit FNV-1a-style rolling hash over
the UTF-16 code units, rendered as a zero-padded lowercase hex string. -/
def hash32 (input : String) : String :=
  ⟨padStart8 (hexDigits ((utf16Units input).foldl hash32Step 0x811c9dc5))⟩

/-- `stableHighlightId` (templating.ts:585-587). -/
def stableHighlightId (bookKey location text : String) : String :=
  hash32 (bookKey ++ "::" ++ location ++ "::" ++ text)

/-- The textbook FNV-1a update on 32 bits: xor, then multiply by the FNV
prime 16777619, modulo 2^32.  This is the shape the specification names;
the code expresses the multiplication through shifts. -/
def fnv1aStep (h u : Nat) : Nat := ((h ^^^ u) * 16777619) % 2 ^ 32

theorem hash32Step_eq_fnv1aStep (h u : Nat) : hash32Step h u = fnv1aStep h u := by
  unfold hash32Step fnv1aStep
  simp only [Nat.shiftLeft_eq]
  congr 1
  ring

theorem hash32Step_funext : hash32Step = fnv1aStep :=
  funext fun h => funext fun u => hash32Step_eq_fnv1aStep h u

theorem foldl_hash32Step_eq_fnv (l : List Nat) (h : Nat) :
    l.foldl hash32Step h = l.foldl fnv1aStep h := by
  rw [hash32Step_funext]

theorem hash32Step_lt (h u : Nat) : hash32Step h u < 2 ^ 32 := by
  rw [hash32Step_eq_fnv1aStep]
  exact Nat.mod_lt _ (by norm_num)

theorem foldl_hash32Step_lt (l : List Nat) :
    ∀ h : Nat, h < 2 ^ 32 → l.foldl hash32Step h < 2 ^ 32 := by
  induction l with
  | nil => intro h hh; exact hh
  | cons u rest ih =>
    intro h _
    rw [List.foldl_cons]
    exact ih _ (hash32Step_lt h u)

/-- A lowercase hexadecimal digit. -/
def isLowerHexDigit (c : Char) : Bool :=
  ('0' ≤ c && c ≤ '9') || ('a' ≤ c && c ≤ 'f')

theorem hexDigitChar_lower : ∀ m, m < 16 → isLowerHexDigit (hexDigitChar m) = true := by
  decide

theorem hexDigits_lower : ∀ n, ∀ c ∈ hexDigits n, isLowerHexDigit c = true := by
  intro n
  induction n using Nat.strong_induction_on with
  | _ n ih =>
    intro c hc
    unfold hexDigits at hc
    split at hc
    · rcases List.mem_singleton.mp hc with rfl
      exact hexDigitChar_lower n (by omega)
    · rcases List.mem_append.mp hc with h1 | h2
      · exact ih (n / 16) (Nat.div_lt_self (by omega) (by omega)) c h1
      · rcases List.mem_singleton.mp h2 with rfl
        exact hexDigitChar_lower _ (Nat.mod_lt _ (by omega))

theorem hexDigits_length_le : ∀ k n : Nat, 1 ≤ k → n < 16 ^ k →
    (hexDigits n).length ≤ k := by
  intro k
  induction k with
  | zero => intro n hk _; omega
  | succ k ih =>
    intro n _ hn
    by_cases h16 : n < 16
    · unfold hexDigits
      rw [if_pos h16]
      simp
    · have hk : 1 ≤ k := by
        by_contra hk0
        have : k = 0 := by omega
        subst this
        simp [pow_succ, pow_zero] at hn
        omega
      unfold hexDigits
      rw [if_neg h16]
      have hdiv : n / 16 < 16 ^ k := by
        rw [Nat.div_lt_iff_lt_mul (by omega)]
        calc n < 16 ^ (k + 1) := hn
        _ = 16 ^ k * 16 := by ring
      have := ih (n / 16) hk hdiv
      simp only [List.length_append, List.length_singleton]
      omega

theorem padStart8_length (l : List Char) (h : l.length ≤ 8) :
    (padStart8 l).length = 8 := by
  simp only [padStart8, List.length_append, List.length_replicate]
  omega

theorem hash32_length (s : String) : (hash32 s).length = 8 := by
  have hlt : (utf16Units s).foldl hash32Step 0x811c9dc5 < 16 ^ 8 := by
    have h := foldl_hash32Step_lt (utf16Units s) 0x811c9dc5 (by norm_num)
    norm_num at h ⊢
    omega
  have h8 : (hexDigits ((utf16Units s).foldl hash32Step 0x811c9dc5)).length ≤ 8 :=
    hexDigits_length_le 8 _ (by norm_num) hlt
  show (⟨padStart8 _⟩ : String).length = 8
  simpa [String.length] using padStart8_length _ h8

/-- C6: the highlight identifier is a pure function of
`(bookKey, location, text)`: the 32-bit FNV-1a hash (xor with each UTF-16
code unit of `bookKey ++ "::" ++ location ++ "::" ++ text`, then multiply
by the FNV prime mod 2^32) rendered as exactly 8 lowercase hexadecimal
digits, zero-padded. -/
theorem c6_stable_id_format (bookKey location text : String) :
    stableHighlightId bookKey location text
      = hash32 (bookKey ++ "::" ++ location ++ "::" ++ text) ∧
    stableHighlightId bookKey location text
      = ⟨padStart8 (hexDigits
          ((utf16Units (bookKey ++ "::" ++ location ++ "::" ++ text)).foldl
            fnv1aStep 0x811c9dc5))⟩ ∧
    (stableHighlightId bookKey location text).length = 8 ∧
    ∀ c ∈ (stableHighlightId bookKey location text).data, isLowerHexDigit c = true := by
  refine ⟨rfl, ?_, hash32_length _, ?_⟩
  · show hash32 _ = _
    unfold hash32
    rw [foldl_hash32Step_eq_fnv]
  · intro c hc
    have : c ∈ padStart8 (hexDigits
        ((utf16Units (bookKey ++ "::" ++ location ++ "::" ++ text)).foldl
          hash32Step 0x811c9dc5)) := hc
    rcases List.mem_append.mp this with h1 | h2
    · rcases List.eq_of_mem_replicate h1 with rfl
      decide
    · exact hexDigits_lower _ c h2

/-! ### Note parsing (`extractFromNote`, noteParsing.ts) -/

/-- A character matched by `[\p{L}\p{N}_-]` in the tag regex.  The Unicode
letter/number property classes of the source are modelled on the ASCII
range, which covers every string analysed in this development. -/
def isTagChar (c : Char) : Bool :=
  c.isAlpha || c.isDigit || c = '_' || c = '-'

/-- The left-to-right scan of the global regex `/(^|\s)#([\p{L}\p{N}_-]+)/gu`
over the note, returning the captured groups `m[2]` in match order.  The
`Bool` argument records whether the `^` alternative can still fire (only at
index 0); after a failed attempt the engine advances one position, after a
successful match it continues right after the consumed characters.  The
fuel is at least the remaining length plus one, and every recursive call
strictly shortens the list, so the fuel never runs out. -/
def scanTagsAux : Nat → Bool → List Char → List String
  | 0, _, _ => []
  | _, _, [] => []
  | fuel + 1, caret, c :: rest =>
    if caret && c = '#' then
      let run := rest.takeWhile isTagChar
      if run.isEmpty then scanTagsAux fuel false rest
      else ⟨run⟩ :: scanTagsAux fuel false (rest.drop run.length)
    else if isJsWs c then
      match rest with
      | '#' :: rest2 =>
        let run := rest2.takeWhile isTagChar
        if run.isEmpty then scanTagsAux fuel false rest
        else ⟨run⟩ :: scanTagsAux fuel false (rest2.drop run.length)
      | _ => scanTagsAux fuel false rest
    else scanTagsAux fuel false rest

def scanTagMatches (l : List Char) : List String :=
  scanTagsAux (l.length + 1) true l

/-- Punctuation stripped from the end of a raw tag:
`raw.replace(/[.,;:!?]+$/, "")`. -/
def isStripPunct (c : Char) : Bool :=
  c = '.' || c = ',' || c = ';' || c = ':' || c = '!' || c = '?'

def stripTrailingPunct (s : String) : String :=
  ⟨(s.data.reverse.dropWhile isStripPunct).reverse⟩

/-- Insertion into a JS `Set` (insertion order preserved, no duplicates). -/
def listSetAdd {α} [DecidableEq α] (l : List α) (x : α) : List α :=
  if x ∈ l then l else l ++ [x]

/-- `Array.from(new Set(l))`: first-seen deduplication. -/
def dedupKeepFirst {α} [DecidableEq α] (l : List α) : List α :=
  l.foldl listSetAdd []

/-- One attempt of the link regex `/\[\[([^[\]|]+)(?:\|[^[\]]+)?\]\]/g` at a
position just after `[[`: a non-empty greedy run of characters outside
`[ ] |` is the capture; it may be followed by `|` and a non-empty alias run
outside `[ ]`; the match must close with `]]`.  Returns the capture and the
remaining input after the match. -/
def scanLinksTry (l : List Char) : Option (String × List Char) :=
  let t := l.takeWhile (fun c => !(c = '[' || c = ']' || c = '|'))
  if t.isEmpty then none
  else
    match l.drop t.length with
    | ']' :: ']' :: rest => some (⟨t⟩, rest)
    | '|' :: r2 =>
      let a := r2.takeWhile (fun c => !(c = '[' || c = ']'))
      if a.isEmpty then none
      else
        match r2.drop a.length with
        | ']' :: ']' :: rest => some (⟨t⟩, rest)
        | _ => none
    | _ => none

/-- The left-to-right scan of the link regex.  Fuel as in `scanTagsAux`. -/
def scanLinksAux : Nat → List Char → List String
  | 0, _ => []
  | _, [] => []
  | fuel + 1, '[' :: '[' :: rest =>
    (match scanLinksTry rest with
      | some (t, r) => t :: scanLinksAux fuel r
      | none => scanLinksAux fuel ('[' :: rest))
  | fuel + 1, _ :: rest => scanLinksAux fuel rest

def scanLinkMatches (l : List Char) : List String :=
  scanLinksAux (l.length + 1) l

structure NoteParseResult where
  tags : List String
  links : List String
deriving DecidableEq

/-- `raw.trim()`, discard when empty, strip trailing punctuation, discard
when empty again (noteParsing.ts:23-27). -/
def cleanTag (raw : String) : Option String :=
  let raw1 := jsTrim raw
  if raw1 = "" then none
  else
    let clean := stripTrailingPunct raw1
    if clean = "" then none else some clean

/-- Shallow embedding of `extractFromNote` (noteParsing.ts:12-38).  The JS
`Set`s preserve insertion order, so they are modelled as deduplicated
lists. -/
def extractFromNote (note : Option String) : NoteParseResult :=
  match note with
  | none => ⟨[], []⟩
  | some n =>
    if jsTrim n = "" then ⟨[], []⟩
    else
      let tags := (scanTagMatches n.data).foldl
        (fun acc raw =>
          match cleanTag raw with
          | some t => listSetAdd acc t
          | none => acc) []
      let links := (scanLinkMatches n.data).foldl
        (fun acc raw =>
          let t := jsTrim raw
          if t = "" then acc else listSetAdd acc t) []
      ⟨tags, links⟩

/-- C8: extracting tags and links from the note
`"Good insight #idea #idea, see [[Chapter 2|ch2]]"` yields exactly the tag
set `{"idea"}` (second occurrence deduplicated) and exactly the link set
`{"Chapter 2"}` (the pipe alias discarded). -/
theorem c8_note_example :
    extractFromNote (some "Good insight #idea #idea, see [[Chapter 2|ch2]]")
      = ⟨["idea"], ["Chapter 2"]⟩ := by
  decide

/-! ### Color tagging (`colorTagging.ts`) -/

/-- ASCII-scoped model of `String.prototype.toLowerCase` (sufficient for
the strings analysed here). -/
def asciiLower (c : Char) : Char :=
  if 'A' ≤ c && c ≤ 'Z' then Char.ofNat (c.toNat + 32) else c

def jsToLowerCase (s : String) : String := ⟨s.data.map asciiLower⟩

/-- `normalizeColor` (colorTagging.ts:1-4): `null`/`undefined`/`""` are
falsy and yield `null`; otherwise trim then lowercase. -/
def normalizeColor : Option String → Option String
  | none => none
  | some c => if c = "" then none else some (jsToLowerCase (jsTrim c))

/-- Property lookup in the color→tags record; object keys are unique. -/
def recordLookup (m : List (String × List String)) (k : String) :
    Option (List String) :=
  (m.find? (fun kv => kv.1 = k)).map (fun kv => kv.2)

/-- `color.replace(/\s+/g, "")`: every whitespace removed. -/
def stripAllWs (s : String) : String := ⟨s.data.filter (fun c => !isJsWs c)⟩

/-- `tagsForColor` (colorTagging.ts:6-13).  An empty-string color is falsy
in JS and yields no tags. -/
def tagsForColor (color : Option String) (map : List (String × List String)) :
    List String :=
  match color with
  | none => []
  | some c =>
    if c = "" then []
    else dedupKeepFirst
      ((recordLookup map c).getD ((recordLookup map (stripAllWs c)).getD []))

/-! ### UTF-16 code-unit string order (the JS default sort comparator) -/

/-- Lexicographic ≤ on code-unit sequences. -/
def natListLe : List Nat → List Nat → Bool
  | [], _ => true
  | _ :: _, [] => false
  | a :: as, b :: bs =>
    if a < b then true else if a = b then natListLe as bs else false

/-- `a <= b` in the sense of the default `Array.prototype.sort` comparator,
which compares strings by UTF-16 code units. -/
def jsLe (a b : String) : Prop := natListLe (utf16Units a) (utf16Units b) = true

instance : DecidableRel jsLe := fun a b =>
  inferInstanceAs (Decidable (natListLe (utf16Units a) (utf16Units b) = true))

theorem natListLe_total : ∀ x y : List Nat, natListLe x y = true ∨ natListLe y x = true := by
  intro x
  induction x with
  | nil => intro y; left; rfl
  | cons a as ih =>
    intro y
    cases y with
    | nil => right; rfl
    | cons b bs =>
      rcases Nat.lt_trichotomy a b with h | h | h
      · left; simp [natListLe, h]
      · subst h
        rcases ih bs with h2 | h2
        · left; simp [natListLe, h2]
        · right; simp [natListLe, h2]
      · right; simp [natListLe, h]

theorem natListLe_trans : ∀ x y z : List Nat,
    natListLe x y = true → natListLe y z = true → natListLe x z = true := by
  intro x
  induction x with
  | nil => intro y z _ _; rfl
  | cons a as ih =>
    intro y z hxy hyz
    cases y with
    | nil => simp [natListLe] at hxy
    | cons b bs =>
      cases z with
      | nil => simp [natListLe] at hyz
      | cons c cs =>
        simp only [natListLe] at hxy hyz ⊢
        by_cases hab : a < b
        · by_cases hbc : b < c
          · simp [show a < c from lt_trans hab hbc]
          · by_cases hbc2 : b = c
            · subst hbc2; simp [hab]
            · simp [hbc, hbc2] at hyz
        · by_cases hab2 : a = b
          · subst hab2
            simp only [if_neg hab, if_pos rfl] at hxy
            by_cases hac : a < c
            · simp [hac]
            · by_cases hac2 : a = c
              · subst hac2
                simp only [if_neg hac, if_pos rfl] at hyz ⊢
                exact ih _ _ hxy hyz
              · simp [hac, hac2] at hyz
          · simp [hab, hab2] at hxy

instance : IsTotal String jsLe :=
  ⟨fun a b => natListLe_total (utf16Units a) (utf16Units b)⟩

instance : IsTrans String jsLe :=
  ⟨fun _ _ _ h1 h2 => natListLe_trans _ _ _ h1 h2⟩

/-- `mergeTags` (colorTagging.ts:16-20): a `Set` seeded with `existing`,
extended with every truthy element of `extra`, then `Array.from(s).sort()`
with the default comparator (UTF-16 code-unit order).  After deduplication
all elements are distinct, so any correct sort produces this unique sorted
permutation. -/
def mergeTags (existing extra : List String) : List String :=
  let s := extra.foldl
    (fun acc t => if t = "" then acc else listSetAdd acc t)
    (existing.foldl listSetAdd [])
  List.insertionSort jsLe s

/-! ### Raw input model (`KOJson`, templating.ts:292-323)

JSON `undefined`/`null` fields are `none`; union-typed fields use `Sum`. -/

structure RawBookMeta where
  title : Option String
  author : Option (Sum String (List String))
  authors : Option (List String)
  uid : Option String
deriving DecidableEq

structure RawHighlight where
  text : Option String
  note : Option String
  color : Option String
  page : Option Int
  location : Option (Sum String Int)
  created : Option String
deriving DecidableEq

structure RawEntry where
  text : Option String
  time : Option Int
  color : Option String
  sort : Option String
  drawer : Option String
  page : Option Int
  chapter : Option String
  note : Option String
  book : Option String
  author : Option String
  location : Option (Sum String Int)
deriving DecidableEq

structure RawFileMeta where
  file : String
  title : Option String
  author : Option String
deriving DecidableEq

structure KOJson where
  book : Option RawBookMeta
  highlights : Option (List RawHighlight)
  entries : Option (List RawEntry)
  files : Option (List RawFileMeta)
deriving DecidableEq

/-! ### Normalized model (`KOBook`, templating.ts:326-340)

The enriched fields `_color`/`_colorTags`/`_tagsFromNote`/`_linksFromNote`
are absent until `enrichBook` fills them; an absent list field and an empty
one are observationally identical everywhere they are read (`?? []`,
`?.length`), so they are plain lists here, and `_counts` is flattened into
two fields. -/

structure NormHighlight where
  text : String
  note : Option String
  color : Option String
  page : Option Int
  location : String
  created : Option String
  _id : String
  _color : Option String
  _colorTags : List String
  _tagsFromNote : List String
  _linksFromNote : List String
deriving DecidableEq

structure KOBook where
  title : String
  author : String
  uid : Option String
  highlights : List NormHighlight
  countHighlights : Nat
  countNotes : Nat
deriving DecidableEq

/-- `typeof location === "number" ? String(location) : (location ?? "")`.
JS stringification of an integral number is its decimal form. -/
def locString : Option (Sum String Int) → String
  | some (Sum.inr n) => toString n
  | some (Sum.inl s) => s
  | none => ""

/-- `!!hh.note?.trim()`: a note that is present and not all whitespace. -/
def hasNote (h : NormHighlight) : Bool :=
  match h.note with
  | some n => jsTrim n ≠ ""
  | none => false

/-! ### `new Date(t * 1000).toISOString()` for epoch seconds

Modelled for times whose year lies in 0..9999 (the plain four-digit ISO
form); the expanded-year form uses a sign and six digits.  The `RangeError`
JS throws beyond ±8.64e15 ms is not modelled; no claim depends on this
value. -/

def padNum (width n : Nat) : String :=
  let s := toString n
  ⟨List.replicate (width - s.length) '0' ++ s.data⟩

/-- Civil date from days since 1970-01-01 (proleptic Gregorian). -/
def civilFromDays (z0 : Int) : Int × Nat × Nat :=
  let z := z0 + 719468
  let era : Int := Int.ediv z 146097
  let doe : Nat := (z - era * 146097).toNat
  let yoe : Nat := (doe - doe / 1460 + doe / 36524 - doe / 146096) / 365
  let doy : Nat := doe - (365 * yoe + yoe / 4 - yoe / 100)
  let mp : Nat := (5 * doy + 2) / 153
  let d : Nat := doy - (153 * mp + 2) / 5 + 1
  let m : Nat := if mp < 10 then mp + 3 else mp - 9
  ((yoe : Int) + era * 400 + (if m ≤ 2 then 1 else 0), m, d)

def isoYearStr (y : Int) : String :=
  if 0 ≤ y ∧ y ≤ 9999 then padNum 4 y.toNat
  else if y < 0 then "-" ++ padNum 6 (-y).toNat
  else "+" ++ padNum 6 y.toNat

def epochSecondsToISO (t : Int) : String :=
  let ms : Int := t * 1000
  let days : Int := Int.ediv ms 86400000
  let msOfDay : Nat := (Int.emod ms 86400000).toNat
  match civilFromDays days with
  | (y, m, d) =>
    isoYearStr y ++ "-" ++ padNum 2 m ++ "-" ++ padNum 2 d ++ "T" ++
    padNum 2 (msOfDay / 3600000) ++ ":" ++
    padNum 2 (msOfDay / 60000 % 60) ++ ":" ++
    padNum 2 (msOfDay / 1000 % 60) ++ "." ++
    padNum 3 (msOfDay % 1000) ++ "Z"

/-! ### Schema normalizer (`normalizeKOReaderJsonMany`, templating.ts:342-426) -/

/-- The classic-path guard (templating.ts:344):
`raw.highlights && (raw.book || raw.highlights.length)`.  A present array
is truthy even when empty, so the guard requires the highlight collection
to be present AND (the book record present OR the collection non-empty). -/
def isClassicShape (raw : KOJson) : Bool :=
  raw.highlights.isSome && (raw.book.isSome || !(raw.highlights.getD []).isEmpty)

/-- The grouped-path guard (templating.ts:382):
`Array.isArray(raw.entries) && raw.entries.length`. -/
def isGroupedShape (raw : KOJson) : Bool :=
  raw.entries.isSome && !(raw.entries.getD []).isEmpty

/-- Title, author and uid of the classic branch (templating.ts:345-351). -/
def classicTitleAuthorUid (raw : KOJson) : String × String × Option String :=
  let bk := raw.book
  let title := jsTrim ((bk.bind (fun b => b.title)).getD "Unknown")
  let authorArr : Option (List String) :=
    match bk.bind (fun b => b.authors) with
    | some l => some l
    | none =>
      match bk.bind (fun b => b.author) with
      | some (Sum.inr l) => some l
      | _ => none
  let authorStr :=
    match authorArr with
    | some l => String.intercalate ", " l
    | none =>
      match bk.bind (fun b => b.author) with
      | some (Sum.inl s) => s
      | _ => "Unknown"
  let author := if jsTrim authorStr = "" then "Unknown" else jsTrim authorStr
  (title, author, bk.bind (fun b => b.uid))

/-- The classic branch (templating.ts:344-379): one book, with one
normalized highlight per input record. -/
def classicBooks (raw : KOJson) : List KOBook :=
  match classicTitleAuthorUid raw with
  | (title, author, uid) =>
    let highlights : List NormHighlight := (raw.highlights.getD []).map
      (fun h => ⟨h.text.getD "", h.note, h.color, h.page, locString h.location,
                 h.created, "", none, [], [], []⟩)
    let withIds := highlights.map (fun h =>
      { h with _id := stableHighlightId (uid.getD (author ++ ":" ++ title))
                        h.location h.text })
    [⟨title, author, uid, withIds, withIds.length,
      (withIds.filter hasNote).length⟩]

/-- Entry title (templating.ts:390): `(e.book ?? "Unknown").trim()`. -/
def entryTitle (e : RawEntry) : String := jsTrim (e.book.getD "Unknown")

/-- Author lookup in the per-title file-metadata map (templating.ts:383-386):
only files with a truthy title are added, later entries overwrite earlier
ones. -/
def fileMetaFor (files : List RawFileMeta) (title : String) :
    Option RawFileMeta :=
  (files.filter (fun f => f.title = some title && title ≠ "")).getLast?

/-- Entry author (templating.ts:391-392):
`e.author ?? fileMetaByTitle.get(title)?.author ?? "Unknown"`, then
`String(...).trim() || "Unknown"`. -/
def entryAuthor (files : List RawFileMeta) (e : RawEntry) : String :=
  let inferred :=
    match e.author with
    | some a => a
    | none =>
      match (fileMetaFor files (entryTitle e)).bind (fun f => f.author) with
      | some a => a
      | none => "Unknown"
  if jsTrim inferred = "" then "Unknown" else jsTrim inferred

/-- The grouping key `` `${title}@@${author}` `` (templating.ts:393). -/
def groupKey (title author : String) : String := title ++ "@@" ++ author

structure EntryGroup where
  title : String
  author : String
  items : List RawEntry
deriving DecidableEq

/-- Append the entry to the (unique) group already holding `key`
(`groups.get(key)` followed by `g.items.push(e)`). -/
def addToGroup : List EntryGroup → String → RawEntry → List EntryGroup
  | [], _, _ => []
  | g :: gs, key, e =>
    if groupKey g.title g.author = key then ⟨g.title, g.author, g.items ++ [e]⟩ :: gs
    else g :: addToGroup gs key e

/-- The key set of the insertion-ordered `Map` of groups. -/
def groupKeys (gs : List EntryGroup) : List String :=
  gs.map (fun g => groupKey g.title g.author)

/-- One iteration of the grouping loop (templating.ts:389-397):
`groups.get(key)` hits iff the key is already present, in which case the
entry is pushed onto that group's items; otherwise a fresh group is
appended (JS `Map` preserves insertion order). -/
def insertEntry (files : List RawFileMeta) (groups : List EntryGroup)
    (e : RawEntry) : List EntryGroup :=
  let title := entryTitle e
  let author := entryAuthor files e
  let key := groupKey title author
  if key ∈ groupKeys groups then addToGroup groups key e
  else groups ++ [⟨title, author, [e]⟩]

/-- An entry mapped to a normalized highlight (templating.ts:401-408). -/
def entryToHighlight (e : RawEntry) : NormHighlight :=
  ⟨e.text.getD "", e.note, e.color, e.page, locString e.location,
   e.time.map epochSecondsToISO, "", none, [], [], []⟩

/-- One group turned into a book (templating.ts:400-420). -/
def bookOfGroup (g : EntryGroup) : KOBook :=
  let highlights := g.items.map entryToHighlight
  let withIds := highlights.map (fun h =>
    { h with _id := stableHighlightId (g.author ++ ":" ++ g.title)
                      h.location h.text })
  ⟨g.title, g.author, none, withIds, withIds.length,
   (withIds.filter hasNote).length⟩

/-- The grouped branch (templating.ts:382-423). -/
def groupedBooks (raw : KOJson) : List KOBook :=
  let files := raw.files.getD []
  let groups := (raw.entries.getD []).foldl (insertEntry files) []
  groups.map bookOfGroup

def unknownBook : KOBook := ⟨"Unknown", "Unknown", none, [], 0, 0⟩

/-- `normalizeKOReaderJsonMany` (templating.ts:342-426). -/
def normalizeKOReaderJsonMany (raw : KOJson) : List KOBook :=
  if isClassicShape raw then classicBooks raw
  else if isGroupedShape raw then groupedBooks raw
  else [unknownBook]

/-! ### Lemmas about the grouping loop -/

/-- The combined key of an entry, after title defaulting and author
backfill. -/
def entryKeyOf (files : List RawFileMeta) (e : RawEntry) : String :=
  groupKey (entryTitle e) (entryAuthor files e)

/-- The (title, author) pair of an entry, after title defaulting and author
backfill: the quantity the original claim counts. -/
def entryPairOf (files : List RawFileMeta) (e : RawEntry) : String × String :=
  (entryTitle e, entryAuthor files e)

theorem addToGroup_keys (gs : List EntryGroup) (key : String) (e : RawEntry) :
    groupKeys (addToGroup gs key e) = groupKeys gs := by
  induction gs with
  | nil => rfl
  | cons g gs ih =>
    simp only [addToGroup]
    split
    · simp [groupKeys]
    · simp only [groupKeys, List.map_cons]
      rw [show (addToGroup gs key e).map (fun g => groupKey g.title g.author)
            = groupKeys (addToGroup gs key e) from rfl, ih]
      rfl

theorem addToGroup_length (gs : List EntryGroup) (key : String) (e : RawEntry) :
    (addToGroup gs key e).length = gs.length := by
  have := congrArg List.length (addToGroup_keys gs key e)
  simpa [groupKeys] using this

theorem insertEntry_keys (files : List RawFileMeta) (gs : List EntryGroup)
    (e : RawEntry) :
    groupKeys (insertEntry files gs e)
      = listSetAdd (groupKeys gs) (entryKeyOf files e) := by
  simp only [insertEntry, listSetAdd, entryKeyOf]
  by_cases h : groupKey (entryTitle e) (entryAuthor files e) ∈ groupKeys gs
  · rw [if_pos h, if_pos h, addToGroup_keys]
  · rw [if_neg h, if_neg h]
    simp [groupKeys]

theorem foldl_insertEntry_keys (files : List RawFileMeta) (es : List RawEntry) :
    ∀ gs, groupKeys (es.foldl (insertEntry files) gs)
      = (es.map (entryKeyOf files)).foldl listSetAdd (groupKeys gs) := by
  induction es with
  | nil => intro gs; rfl
  | cons e es ih =>
    intro gs
    simp only [List.foldl_cons, List.map_cons]
    rw [ih, insertEntry_keys]

/-- The key of the book made from a group is the group's key. -/
theorem bookOfGroup_key (g : EntryGroup) :
    groupKey (bookOfGroup g).title (bookOfGroup g).author
      = groupKey g.title g.author := rfl

theorem groupedBooks_keys (raw : KOJson) :
    (groupedBooks raw).map (fun b => groupKey b.title b.author)
      = dedupKeepFirst
          ((raw.entries.getD []).map (entryKeyOf (raw.files.getD []))) := by
  unfold groupedBooks dedupKeepFirst
  rw [List.map_map]
  exact foldl_insertEntry_keys (raw.files.getD []) (raw.entries.getD []) []

theorem foldl_insertEntry_length_le (files : List RawFileMeta)
    (es : List RawEntry) :
    ∀ gs, gs.length ≤ (es.foldl (insertEntry files) gs).length := by
  induction es with
  | nil => intro gs; simp
  | cons e es ih =>
    intro gs
    refine le_trans ?_ (ih (insertEntry files gs e))
    simp only [insertEntry]
    split
    · rw [addToGroup_length]
    · simp

theorem insertEntry_nil_length (files : List RawFileMeta) (e : RawEntry) :
    (insertEntry files [] e).length = 1 := by
  simp [insertEntry, groupKeys]

theorem groupedBooks_ne_nil (raw : KOJson) (hg : isGroupedShape raw = true) :
    groupedBooks raw ≠ [] := by
  unfold isGroupedShape at hg
  rcases hsome : raw.entries with _ | es
  · rw [hsome] at hg; simp at hg
  · rcases es with _ | ⟨e, es'⟩
    · rw [hsome] at hg; simp at hg
    · have hlen : 0 < (groupedBooks raw).length := by
        show 0 < (((raw.entries.getD []).foldl
          (insertEntry (raw.files.getD [])) []).map bookOfGroup).length
        rw [List.length_map]
        simp only [hsome, Option.getD_some, List.foldl_cons]
        have h1 := foldl_insertEntry_length_le (raw.files.getD []) es'
          (insertEntry (raw.files.getD []) [] e)
        rw [insertEntry_nil_length] at h1
        omega
      exact List.length_pos.mp hlen

/-! ### Theorems for C3, C4 and C5 -/

def c3Entry : RawEntry :=
  ⟨some "a", none, none, none, none, none, none, none, none, none, none⟩

/-- A raw document whose classic highlight collection is present but empty,
with no book record and one grouped entry. -/
def c3Raw : KOJson := ⟨none, some [], some [c3Entry], none⟩

/-- C3 counterexample: the claim says the classic shape is selected
whenever the classic highlight collection is present, but on a document
with `highlights: []`, no `book` and a non-empty `entries` the code takes
the grouped branch, which differs from the classic branch's output. -/
theorem c3_counterexample :
    c3Raw.highlights.isSome = true ∧
    normalizeKOReaderJsonMany c3Raw ≠ classicBooks c3Raw := by
  decide

/-- C3 (amended): the classic shape is selected whenever the classic
highlight collection is present AND (the book record is present or the
collection is non-empty); otherwise the grouped shape is selected whenever
the entry collection is present and non-empty; otherwise exactly one
`"Unknown"/"Unknown"` book with zero highlights is returned.  The
normalizer is a total function and never returns zero books. -/
theorem c3_detection (raw : KOJson) :
    (isClassicShape raw = true →
      normalizeKOReaderJsonMany raw = classicBooks raw) ∧
    (isClassicShape raw = false → isGroupedShape raw = true →
      normalizeKOReaderJsonMany raw = groupedBooks raw) ∧
    (isClassicShape raw = false → isGroupedShape raw = false →
      normalizeKOReaderJsonMany raw = [unknownBook]) ∧
    normalizeKOReaderJsonMany raw ≠ [] := by
  refine ⟨fun hc => by simp [normalizeKOReaderJsonMany, hc],
    fun hc hg => by simp [normalizeKOReaderJsonMany, hc, hg],
    fun hc hg => by simp [normalizeKOReaderJsonMany, hc, hg], ?_⟩
  unfold normalizeKOReaderJsonMany
  by_cases hc : isClassicShape raw = true
  · rw [if_pos hc]
    unfold classicBooks
    rcases classicTitleAuthorUid raw with ⟨t, a, u⟩
    simp
  · rw [if_neg hc]
    by_cases hg : isGroupedShape raw = true
    · rw [if_pos hg]
      exact groupedBooks_ne_nil raw hg
    · rw [if_neg hg]
      simp

def c3ClassicRaw : KOJson :=
  ⟨some ⟨some "T", some (Sum.inl "A"), none, none⟩,
   some [⟨some "txt", none, none, none, none, none⟩], none, none⟩

def c3EmptyRaw : KOJson := ⟨none, none, none, none⟩

/-- Witness for C3 (amended) at concrete inputs covering all three
branches. -/
theorem c3_witness :
    normalizeKOReaderJsonMany c3ClassicRaw = classicBooks c3ClassicRaw ∧
    normalizeKOReaderJsonMany c3Raw = groupedBooks c3Raw ∧
    normalizeKOReaderJsonMany c3EmptyRaw = [unknownBook] :=
  ⟨(c3_detection c3ClassicRaw).1 (by decide),
   (c3_detection c3Raw).2.1 (by decide) (by decide),
   (c3_detection c3EmptyRaw).2.2.1 (by decide) (by decide)⟩

/-- C5: for every valid classic-shape input the normalizer returns exactly
one book, whose highlight count equals the number of records in the input
highlight collection. -/
theorem c5_classic_single_book (raw : KOJson) (hs : List RawHighlight)
    (hc : isClassicShape raw = true) (hh : raw.highlights = some hs) :
    ∃ b, normalizeKOReaderJsonMany raw = [b] ∧
      b.highlights.length = hs.length := by
  simp only [normalizeKOReaderJsonMany, hc, if_true]
  unfold classicBooks
  rcases classicTitleAuthorUid raw with ⟨t, a, u⟩
  rw [hh]
  exact ⟨_, rfl, by simp⟩

/-- Witness for C5 at a concrete classic-shape input with one highlight. -/
theorem c5_witness :
    ∃ b, normalizeKOReaderJsonMany c3ClassicRaw = [b] ∧
      b.highlights.length = 1 :=
  c5_classic_single_book c3ClassicRaw
    [⟨some "txt", none, none, none, none, none⟩] (by decide) rfl

def c4e1 : RawEntry :=
  ⟨some "x", none, none, none, none, none, none, none,
   some "a@@b", some "c", none⟩

def c4e2 : RawEntry :=
  ⟨some "y", none, none, none, none, none, none, none,
   some "a", some "b@@c", none⟩

/-- Grouped input with two entries whose distinct (title, author) pairs
collide on the combined key `title ++ "@@" ++ author`. -/
def c4Raw : KOJson := ⟨none, none, some [c4e1, c4e2], none⟩

/-- C4 counterexample: the entries (title "a@@b", author "c") and
(title "a", author "b@@c") form two distinct (title, author) pairs but one
combined grouping key, so the normalizer returns one book, not two. -/
theorem c4_counterexample :
    (normalizeKOReaderJsonMany c4Raw).length = 1 ∧
    (dedupKeepFirst
        ((c4Raw.entries.getD []).map (entryPairOf (c4Raw.files.getD [])))).length = 2 ∧
    (normalizeKOReaderJsonMany c4Raw).length ≠
      (dedupKeepFirst
        ((c4Raw.entries.getD []).map (entryPairOf (c4Raw.files.getD [])))).length := by
  decide

/-- C4 (amended): for every grouped-shape input, the books' combined keys
`title ++ "@@" ++ author` (title defaulting to "Unknown"; author from the
entry, else backfilled from the file metadata matching the title, else
"Unknown") are exactly the first-seen deduplication of the entries'
combined keys, in first-seen order; hence the number of books equals the
number of distinct combined keys — which equals the number of distinct
(title, author) pairs whenever distinct pairs have distinct combined
keys. -/
theorem c4_group_count (raw : KOJson) (es : List RawEntry)
    (hc : isClassicShape raw = false) (he : raw.entries = some es)
    (hne : es ≠ []) :
    (normalizeKOReaderJsonMany raw).map (fun b => groupKey b.title b.author)
        = dedupKeepFirst (es.map (entryKeyOf (raw.files.getD []))) ∧
    (normalizeKOReaderJsonMany raw).length
        = (dedupKeepFirst (es.map (entryKeyOf (raw.files.getD [])))).length := by
  have hg : isGroupedShape raw = true := by
    unfold isGroupedShape
    rw [he]
    simpa using hne
  have hnorm : normalizeKOReaderJsonMany raw = groupedBooks raw := by
    unfold normalizeKOReaderJsonMany
    rw [hc, hg]
    rfl
  have hkeys := groupedBooks_keys raw
  rw [he] at hkeys
  refine ⟨by rw [hnorm]; exact hkeys, ?_⟩
  have := congrArg List.length (hkeys)
  simpa [hnorm, List.length_map] using this

/-- Witness for C4 (amended) at a concrete grouped input. -/
theorem c4_witness :
    (normalizeKOReaderJsonMany c4Raw).map (fun b => groupKey b.title b.author)
        = dedupKeepFirst ([c4e1, c4e2].map (entryKeyOf [])) :=
  (c4_group_count c4Raw [c4e1, c4e2] (by decide) rfl (by decide)).1

/-! ### Tag aggregation (`renderMarkdownForBook`, templating.ts:451-463) -/

/-- The fixed base tags (templating.ts:453). -/
def baseTags : List String := ["reading", "highlights"]

/-- The document-level tag sequence passed as `yaml.tags`
(templating.ts:453-463): a `Set` collecting every note-extracted tag over
the book's highlights, the flattened per-highlight color tags, merged with
the base tags by `mergeTags`. -/
def yamlTagsForBook (book : KOBook) : List String :=
  let collectedNoteTags := book.highlights.foldl
    (fun acc h => h._tagsFromNote.foldl listSetAdd acc) []
  let allColorTags := (book.highlights.map (fun h => h._colorTags)).flatten
  mergeTags baseTags (collectedNoteTags ++ allColorTags)

theorem listSetAdd_nodup {α} [DecidableEq α] {l : List α} (x : α)
    (h : l.Nodup) : (listSetAdd l x).Nodup := by
  unfold listSetAdd
  split
  · exact h
  · rename_i hx
    simpa [List.nodup_append, h] using hx

theorem mem_listSetAdd {α} [DecidableEq α] {l : List α} {a : α} (x : α)
    (h : a ∈ l) : a ∈ listSetAdd l x := by
  unfold listSetAdd
  split
  · exact h
  · exact List.mem_append_left _ h

theorem foldl_listSetAdd_nodup {α} [DecidableEq α] (xs : List α) :
    ∀ acc : List α, acc.Nodup → (xs.foldl listSetAdd acc).Nodup := by
  induction xs with
  | nil => intro acc h; exact h
  | cons x xs ih =>
    intro acc h
    exact ih _ (listSetAdd_nodup x h)

theorem mem_foldl_listSetAdd {α} [DecidableEq α] (xs : List α) :
    ∀ acc : List α, ∀ a ∈ acc, a ∈ xs.foldl listSetAdd acc := by
  induction xs with
  | nil => intro acc a h; exact h
  | cons x xs ih =>
    intro acc a h
    exact ih _ a (mem_listSetAdd x h)

theorem foldl_listSetAddNE_nodup (xs : List String) :
    ∀ acc : List String, acc.Nodup →
      (xs.foldl (fun acc t => if t = "" then acc else listSetAdd acc t) acc).Nodup := by
  induction xs with
  | nil => intro acc h; exact h
  | cons x xs ih =>
    intro acc h
    refine ih _ ?_
    show (if x = "" then acc else listSetAdd acc x).Nodup
    split
    · exact h
    · exact listSetAdd_nodup x h

theorem mem_foldl_listSetAddNE (xs : List String) :
    ∀ acc : List String, ∀ a ∈ acc,
      a ∈ xs.foldl (fun acc t => if t = "" then acc else listSetAdd acc t) acc := by
  induction xs with
  | nil => intro acc a h; exact h
  | cons x xs ih =>
    intro acc a h
    refine ih _ a ?_
    show a ∈ (if x = "" then acc else listSetAdd acc x)
    split
    · exact h
    · exact mem_listSetAdd x h

/-- C7 (amended): the document-level tag sequence produced for the metadata
block by the tag aggregator is sorted by the default JS comparator (UTF-16
code-unit order), deduplicated by exact string equality, and is a superset
of the fixed base tags "reading" and "highlights".  (It is NOT
case-insensitively deduplicated — see the counterexample.) -/
theorem c7_tag_aggregation (book : KOBook) :
    List.Sorted jsLe (yamlTagsForBook book) ∧
    (yamlTagsForBook book).Nodup ∧
    "reading" ∈ yamlTagsForBook book ∧
    "highlights" ∈ yamlTagsForBook book := by
  simp only [yamlTagsForBook, mergeTags]
  refine ⟨List.sorted_insertionSort jsLe _, ?_, ?_, ?_⟩
  · rw [List.Perm.nodup_iff (List.perm_insertionSort jsLe _)]
    apply foldl_listSetAddNE_nodup
    exact foldl_listSetAdd_nodup baseTags [] List.nodup_nil
  · rw [(List.perm_insertionSort jsLe _).mem_iff]
    refine mem_foldl_listSetAddNE _ _ _ ?_
    decide
  · rw [(List.perm_insertionSort jsLe _).mem_iff]
    refine mem_foldl_listSetAddNE _ _ _ ?_
    decide

/-- The property the original claim asserts: no two elements of the list
are equal up to letter case. -/
def caseInsensitivelyDeduped (l : List String) : Prop :=
  (l.map jsToLowerCase).Nodup

instance (l : List String) : Decidable (caseInsensitivelyDeduped l) :=
  inferInstanceAs (Decidable ((l.map jsToLowerCase).Nodup))

def c7Highlight : NormHighlight :=
  ⟨"t", none, none, none, "", none, "", none, [], ["Idea", "idea"], []⟩

def c7Book : KOBook := ⟨"T", "A", none, [c7Highlight], 1, 0⟩

/-- C7 counterexample: a book whose note tags contain both "Idea" and
"idea" (the note-tag extractor is case-sensitive) produces a document-level
tag sequence keeping both, so the sequence is not case-insensitively
deduplicated. -/
theorem c7_counterexample :
    "Idea" ∈ yamlTagsForBook c7Book ∧ "idea" ∈ yamlTagsForBook c7Book ∧
    ¬ caseInsensitivelyDeduped (yamlTagsForBook c7Book) := by
  decide

/-! ### Settings (`settings.ts`) and enrichment (`enrichBook`) -/

/-- `"local" | "webdav" | "usb"` (the settings UI offers the first two; the
summary type also names "usb"). -/
inductive SourceType
  | localFs
  | webdav
  | usb
deriving DecidableEq

structure WebDAVSettings where
  url : String
  username : String
  password : String
  basePath : String
deriving DecidableEq

/-- `KOReaderSyncSettings` (settings.ts:4-14); the color map record is an
association list with unique keys. -/
structure KOReaderSyncSettings where
  sourceType : SourceType
  sourceFolder : String
  webdav : Option WebDAVSettings
  targetFolder : String
  oneNotePerBook : Bool
  colorMap : List (String × List String)
  applyColorTags : Bool
deriving DecidableEq

/-- Enrichment of one highlight (templating.ts:430-447). -/
def enrichHighlight (settings : KOReaderSyncSettings) (h : NormHighlight) :
    NormHighlight :=
  let c := normalizeColor h.color
  let ct := if settings.applyColorTags then tagsForColor c settings.colorMap else []
  let r := extractFromNote h.note
  { h with _color := c, _colorTags := ct,
           _tagsFromNote := r.tags, _linksFromNote := r.links }

/-- `enrichBook` (templating.ts:430-447): the index-mutating loop writes
each enriched highlight back in place, i.e. a map. -/
def enrichBook (settings : KOReaderSyncSettings) (book : KOBook) : KOBook :=
  { book with highlights := book.highlights.map (enrichHighlight settings) }

/-! ### Output path (`fileNameForBook`, templating.ts:490-496) -/

/-- A character of the class `[\\\/:*?"<>|]` removed from filenames. -/
def illegalFileChar (c : Char) : Bool :=
  c = '\\' || c = '/' || c = ':' || c = '*' || c = '?' || c = '"' ||
  c = '<' || c = '>' || c = '|'

/-- `s.replace(/\s+/g, " ")`: each whitespace run becomes one space. -/
def collapseWs : List Char → List Char
  | [] => []
  | c :: rest =>
    if isJsWs c then ' ' :: collapseWs (rest.dropWhile isJsWs)
    else c :: collapseWs rest
termination_by l => l.length
decreasing_by
  · have := (List.dropWhile_sublist isJsWs (l := rest)).length_le
    simp only [List.length_cons]
    omega
  · simp only [List.length_cons]
    omega

/-- `safeSlug` (templating.ts:589-595).  `slice(0, 120)` counts UTF-16 code
units; all strings analysed here are within the basic plane, where that is
a character count. -/
def safeSlug (s : String) : String :=
  ⟨(trimJsList (collapseWs
      (s.data.map (fun c => if illegalFileChar c then ' ' else c)))).take 120⟩

/-- `path.posix.join` followed by obsidian's `normalizePath`, modelled for
well-formed folder values (external library code outside this
repository). -/
def joinVaultPath (folder file : String) : String :=
  if folder = "" then file else folder ++ "/" ++ file

/-- `fileNameForBook` (templating.ts:490-496). -/
def fileNameForBook (settings : KOReaderSyncSettings) (book : KOBook) :
    String :=
  joinVaultPath settings.targetFolder
    (safeSlug book.author ++ " - " ++ safeSlug book.title ++ ".md")

/-! ### Import orchestrator (`importAll`, templating.ts:221-288)

The orchestrator's effects are: listing the raw sources (can fail: the
outer `try`), reading/parsing one source (can fail: the inner `try`), and
the vault reads/writes inside `createOrUpdate` (modelled as total on the
`VFS` map).  Rendering stamps the current date (`todayISO`), so the
composed renderer `renderMarkdownForBook ∘ renderBookMarkdown` is passed as
an opaque function parameter `render`; the orchestrator never inspects the
rendered text. -/

inductive DetailStatus
  | created
  | updated
  | skipped
  | error
deriving DecidableEq

def DetailStatus.ofSync : SyncStatus → DetailStatus
  | SyncStatus.created => DetailStatus.created
  | SyncStatus.updated => DetailStatus.updated
  | SyncStatus.skipped => DetailStatus.skipped

structure ImportDetail where
  file : String
  status : DetailStatus
  reason : Option String
  srcJson : Option String
deriving DecidableEq

structure ImportSummary where
  created : Nat
  updated : Nat
  skipped : Nat
  errors : Nat
  source : SourceType
  details : List ImportDetail
deriving DecidableEq

structure JsonSource where
  localPath : Option String
  remotePath : Option String
  kind : SourceType
deriving DecidableEq

/-- `summary[status] += 1` (templating.ts:259). -/
def bumpSummary (summary : ImportSummary) : SyncStatus → ImportSummary
  | SyncStatus.created => { summary with created := summary.created + 1 }
  | SyncStatus.updated => { summary with updated := summary.updated + 1 }
  | SyncStatus.skipped => { summary with skipped := summary.skipped + 1 }

/-- `s.remotePath ?? s.localPath`. -/
def srcPathOpt (s : JsonSource) : Option String :=
  s.remotePath.orElse (fun _ => s.localPath)

/-- The body of the inner book loop (templating.ts:253-266). -/
def processBook (settings : KOReaderSyncSettings) (dryRun : Bool)
    (render : KOBook → JsonSource → String) (s : JsonSource)
    (st : ImportSummary × VFS) (b : KOBook) : ImportSummary × VFS :=
  let enriched := enrichBook settings b
  let outName := fileNameForBook settings enriched
  let md := render enriched s
  let call := createOrUpdate st.2 outName md dryRun
  let status := call.1
  let sum := bumpSummary st.1 status
  ({ sum with details := sum.details ++
      [⟨outName, DetailStatus.ofSync status,
        if status = SyncStatus.skipped then some "No changes" else none,
        srcPathOpt s⟩] }, call.2)

/-- One iteration of the source loop with its inner `try/catch`
(templating.ts:248-276): a failed read/parse appends one error detail and
increments the error counter; a successful read processes each normalized
book. -/
def processSource (settings : KOReaderSyncSettings) (dryRun : Bool)
    (render : KOBook → JsonSource → String)
    (readResult : JsonSource → Except String KOJson)
    (st : ImportSummary × VFS) (s : JsonSource) : ImportSummary × VFS :=
  match readResult s with
  | Except.error msg =>
    ({ st.1 with
        errors := st.1.errors + 1
        details := st.1.details ++
          [⟨"(unknown)", DetailStatus.error, some msg, none⟩] }, st.2)
  | Except.ok data =>
    (normalizeKOReaderJsonMany data).foldl
      (processBook settings dryRun render s) st

/-- `importAll` (templating.ts:235-288).  `listResult` abstracts
`listJsonSources` (the only fallible step of the outer `try`); a listing
failure is recorded once as the `"(batch)"` error detail and the partial
summary — here the initial one — is returned. -/
def importAll (settings : KOReaderSyncSettings) (dryRun : Bool)
    (render : KOBook → JsonSource → String)
    (listResult : Except String (List JsonSource))
    (readResult : JsonSource → Except String KOJson)
    (v : VFS) : ImportSummary × VFS :=
  let init : ImportSummary × VFS :=
    (⟨0, 0, 0, 0, settings.sourceType, []⟩, v)
  match listResult with
  | Except.error msg =>
    ({ init.1 with
        errors := init.1.errors + 1
        details := init.1.details ++
          [⟨"(batch)", DetailStatus.error, some msg, none⟩] }, init.2)
  | Except.ok sources =>
    sources.foldl (processSource settings dryRun render readResult) init

/-! ### Theorems for C2 and C10 -/

/-- The error detail records produced by the failed reads among
`sources`, in order. -/
def errorDetailsOf (readResult : JsonSource → Except String KOJson)
    (sources : List JsonSource) : List ImportDetail :=
  sources.filterMap (fun s =>
    match readResult s with
    | Except.error msg =>
      some ⟨"(unknown)", DetailStatus.error, some msg, none⟩
    | Except.ok _ => none)

/-- The orchestrator's counting invariant: each of the four counters counts
its own detail records. -/
def summaryBalanced (sum : ImportSummary) : Prop :=
  sum.created + sum.updated + sum.skipped + sum.errors = sum.details.length

theorem bumpSummary_errors (sum : ImportSummary) (status : SyncStatus) :
    (bumpSummary sum status).errors = sum.errors := by
  cases status <;> rfl

theorem bumpSummary_details (sum : ImportSummary) (status : SyncStatus) :
    (bumpSummary sum status).details = sum.details := by
  cases status <;> rfl

theorem bumpSummary_sum (sum : ImportSummary) (status : SyncStatus) :
    (bumpSummary sum status).created + (bumpSummary sum status).updated
      + (bumpSummary sum status).skipped + (bumpSummary sum status).errors
    = sum.created + sum.updated + sum.skipped + sum.errors + 1 := by
  cases status <;> simp [bumpSummary] <;> omega

theorem ofSync_ne_error (status : SyncStatus) :
    DetailStatus.ofSync status ≠ DetailStatus.error := by
  cases status <;> decide

theorem processBook_errors (settings : KOReaderSyncSettings) (dryRun : Bool)
    (render : KOBook → JsonSource → String) (s : JsonSource)
    (st : ImportSummary × VFS) (b : KOBook) :
    (processBook settings dryRun render s st b).1.errors = st.1.errors ∧
    (processBook settings dryRun render s st b).1.details.filter
        (fun d => d.status = DetailStatus.error)
      = st.1.details.filter (fun d => d.status = DetailStatus.error) := by
  simp only [processBook]
  constructor
  · exact bumpSummary_errors _ _
  · rw [List.filter_append, bumpSummary_details]
    simp [ofSync_ne_error]

theorem processBook_balanced (settings : KOReaderSyncSettings) (dryRun : Bool)
    (render : KOBook → JsonSource → String) (s : JsonSource)
    (st : ImportSummary × VFS) (b : KOBook)
    (h : summaryBalanced st.1) :
    summaryBalanced (processBook settings dryRun render s st b).1 := by
  unfold summaryBalanced at h ⊢
  simp only [processBook]
  rw [List.length_append, bumpSummary_details]
  have hsum := bumpSummary_sum st.1
    (createOrUpdate st.2 (fileNameForBook settings (enrichBook settings b))
      (render (enrichBook settings b) s) dryRun).1
  simp only [List.length_singleton]
  omega

theorem foldl_processBook_errors (settings : KOReaderSyncSettings)
    (dryRun : Bool) (render : KOBook → JsonSource → String) (s : JsonSource)
    (books : List KOBook) :
    ∀ st : ImportSummary × VFS,
      (books.foldl (processBook settings dryRun render s) st).1.errors
          = st.1.errors ∧
      (books.foldl (processBook settings dryRun render s) st).1.details.filter
          (fun d => d.status = DetailStatus.error)
        = st.1.details.filter (fun d => d.status = DetailStatus.error) := by
  induction books with
  | nil => intro st; exact ⟨rfl, rfl⟩
  | cons b books ih =>
    intro st
    rw [List.foldl_cons]
    rcases ih (processBook settings dryRun render s st b) with ⟨h1, h2⟩
    rcases processBook_errors settings dryRun render s st b with ⟨h3, h4⟩
    exact ⟨h1.trans h3, h2.trans h4⟩

theorem foldl_processBook_balanced (settings : KOReaderSyncSettings)
    (dryRun : Bool) (render : KOBook → JsonSource → String) (s : JsonSource)
    (books : List KOBook) :
    ∀ st : ImportSummary × VFS, summaryBalanced st.1 →
      summaryBalanced
        ((books.foldl (processBook settings dryRun render s) st)).1 := by
  induction books with
  | nil => intro st h; exact h
  | cons b books ih =>
    intro st h
    rw [List.foldl_cons]
    exact ih _ (processBook_balanced settings dryRun render s st b h)

theorem processSource_errors (settings : KOReaderSyncSettings) (dryRun : Bool)
    (render : KOBook → JsonSource → String)
    (readResult : JsonSource → Except String KOJson)
    (st : ImportSummary × VFS) (s : JsonSource) :
    (processSource settings dryRun render readResult st s).1.errors
        = st.1.errors + (errorDetailsOf readResult [s]).length ∧
    (processSource settings dryRun render readResult st s).1.details.filter
        (fun d => d.status = DetailStatus.error)
      = st.1.details.filter (fun d => d.status = DetailStatus.error)
          ++ errorDetailsOf readResult [s] := by
  unfold processSource errorDetailsOf
  rcases hr : readResult s with msg | data
  · simp [List.filter_append, hr]
  · simp only [hr, List.filterMap_cons]
    rcases foldl_processBook_errors settings dryRun render s
      (normalizeKOReaderJsonMany data) st with ⟨h1, h2⟩
    simp [h1, h2]

theorem processSource_balanced (settings : KOReaderSyncSettings)
    (dryRun : Bool) (render : KOBook → JsonSource → String)
    (readResult : JsonSource → Except String KOJson)
    (st : ImportSummary × VFS) (s : JsonSource)
    (h : summaryBalanced st.1) :
    summaryBalanced (processSource settings dryRun render readResult st s).1 := by
  unfold processSource
  rcases hr : readResult s with msg | data
  · unfold summaryBalanced at h ⊢
    simp
    omega
  · exact foldl_processBook_balanced settings dryRun render s _ st h

theorem foldl_processSource_errors (settings : KOReaderSyncSettings)
    (dryRun : Bool) (render : KOBook → JsonSource → String)
    (readResult : JsonSource → Except String KOJson)
    (sources : List JsonSource) :
    ∀ st : ImportSummary × VFS,
      (sources.foldl (processSource settings dryRun render readResult) st).1.errors
          = st.1.errors + (errorDetailsOf readResult sources).length ∧
      (sources.foldl
          (processSource settings dryRun render readResult) st).1.details.filter
          (fun d => d.status = DetailStatus.error)
        = st.1.details.filter (fun d => d.status = DetailStatus.error)
            ++ errorDetailsOf readResult sources := by
  induction sources with
  | nil => intro st; simp [errorDetailsOf]
  | cons s sources ih =>
    intro st
    rw [List.foldl_cons]
    rcases ih (processSource settings dryRun render readResult st s) with ⟨h1, h2⟩
    rcases processSource_errors settings dryRun render readResult st s with ⟨h3, h4⟩
    have hsplit : errorDetailsOf readResult (s :: sources)
        = errorDetailsOf readResult [s] ++ errorDetailsOf readResult sources := by
      unfold errorDetailsOf
      rcases hr : readResult s with msg | data <;>
        simp [List.filterMap_cons, hr]
    constructor
    · rw [h1, h3, hsplit]
      simp
      omega
    · rw [h2, h4, hsplit, List.append_assoc]

theorem foldl_processSource_balanced (settings : KOReaderSyncSettings)
    (dryRun : Bool) (render : KOBook → JsonSource → String)
    (readResult : JsonSource → Except String KOJson)
    (sources : List JsonSource) :
    ∀ st : ImportSummary × VFS, summaryBalanced st.1 →
      summaryBalanced
        ((sources.foldl (processSource settings dryRun render readResult) st)).1 := by
  induction sources with
  | nil => intro st h; exact h
  | cons s sources ih =>
    intro st h
    rw [List.foldl_cons]
    exact ih _ (processSource_balanced settings dryRun render readResult st s h)

/-- C2: a failure reading or parsing one source increments the error
counter and appends exactly one error detail carrying the failure's
message, and the remaining sources are still processed (the run's error
details are exactly those of the failed reads, in order); a failure of the
outer listing step is recorded once as the single `"(batch)"` error detail.
`importAll` is a total function: it always returns a summary. -/
theorem c2_error_isolation (settings : KOReaderSyncSettings) (dryRun : Bool)
    (render : KOBook → JsonSource → String)
    (listResult : Except String (List JsonSource))
    (readResult : JsonSource → Except String KOJson) (v : VFS) :
    (∀ msg, listResult = Except.error msg →
      importAll settings dryRun render listResult readResult v
        = (⟨0, 0, 0, 1, settings.sourceType,
            [⟨"(batch)", DetailStatus.error, some msg, none⟩]⟩, v)) ∧
    (∀ sources, listResult = Except.ok sources →
      (importAll settings dryRun render listResult readResult v).1.errors
          = (errorDetailsOf readResult sources).length ∧
      (importAll settings dryRun render listResult readResult v).1.details.filter
          (fun d => d.status = DetailStatus.error)
        = errorDetailsOf readResult sources) := by
  constructor
  · intro msg hmsg
    subst hmsg
    rfl
  · intro sources hsrc
    subst hsrc
    have h := foldl_processSource_errors settings dryRun render readResult
      sources (⟨0, 0, 0, 0, settings.sourceType, []⟩, v)
    simpa [importAll] using h

def c2Settings : KOReaderSyncSettings :=
  ⟨SourceType.localFs, "", none, "", true, [], true⟩

def c2SrcA : JsonSource := ⟨some "a.json", none, SourceType.localFs⟩

def c2SrcB : JsonSource := ⟨some "b.json", none, SourceType.localFs⟩

def c2Read : JsonSource → Except String KOJson := fun s =>
  if s = c2SrcA then Except.error "boom"
  else Except.ok ⟨none, none, none, none⟩

/-- Witness for C2 at a concrete run: two sources, the first failing with
"boom"; the run's error details are exactly that one record. -/
theorem c2_witness :
    (importAll c2Settings true (fun _ _ => "") (Except.ok [c2SrcA, c2SrcB])
        c2Read (fun _ => none)).1.details.filter
        (fun d => d.status = DetailStatus.error)
      = [⟨"(unknown)", DetailStatus.error, some "boom", none⟩] := by
  have h := ((c2_error_isolation c2Settings true (fun _ _ => "")
      (Except.ok [c2SrcA, c2SrcB]) c2Read (fun _ => none)).2
      [c2SrcA, c2SrcB] rfl).2
  rw [h]
  decide

/-- C10: whenever `importAll` returns, the sum of the four counters
created + updated + skipped + errors equals the length of the details
list: every processed book appends one detail and bumps one counter, and
every caught failure appends one error detail and bumps the error
counter. -/
theorem c10_summary_invariant (settings : KOReaderSyncSettings)
    (dryRun : Bool) (render : KOBook → JsonSource → String)
    (listResult : Except String (List JsonSource))
    (readResult : JsonSource → Except String KOJson) (v : VFS) :
    (importAll settings dryRun render listResult readResult v).1.created
      + (importAll settings dryRun render listResult readResult v).1.updated
      + (importAll settings dryRun render listResult readResult v).1.skipped
      + (importAll settings dryRun render listResult readResult v).1.errors
    = (importAll settings dryRun render listResult readResult v).1.details.length := by
  rcases listResult with msg | sources
  · rfl
  · exact foldl_processSource_balanced settings dryRun render readResult
      sources (⟨0, 0, 0, 0, settings.sourceType, []⟩, v) rfl

end KOSync
